import Mathlib

/-!
Verification of the streaming reasoning-event classifier of the
react-agent-assistant repository.

The definitions below are a shallow embedding of
`ReactAgent.run_with_stream_and_events` (src/agent_core.py) and of the
websocket relay loop in `WebSocketHandler._handle_user_message`
(src/web_api.py).  Python attribute probing (`getattr(x, "f", None)` plus
truthiness tests) is modelled with `Option String` fields where `none`
stands for a missing attribute (or an attribute holding `None`); Python
truthiness of a string is non-emptiness.  The external JSON decoder
(`json.loads`, totalised by the surrounding `try/except`) is a parameter
`dec : String → Option ArgsMap`.  Tool-result payloads, opaque to the
code, are modelled as strings.  The `isinstance(item, dict)` fallback
branches of the source (dead for the SDK item objects this generator
receives) are outside the model.
-/

namespace ReactAgentSpec

/-- Arguments mapping of a tool call; JSON object values are opaque to the
source code, so they are modelled as strings. -/
abbrev ArgsMap := List (String × String)

/-- Value of an `arguments` attribute on a raw record: either encoded text
(to be JSON-decoded) or an already-structured mapping. -/
inductive ArgVal
  | text (s : String)
  | mapping (m : ArgsMap)
deriving DecidableEq

/-- Python truthiness of an optional string attribute: present and non-empty. -/
def pyTruthy : Option String → Bool
  | some s => s ≠ ""
  | none => false

/-- Python truthiness of an `arguments` value: non-empty string or non-empty mapping. -/
def ArgVal.pyTruthyA : ArgVal → Bool
  | .text s => s ≠ ""
  | .mapping m => m ≠ []

/-- First candidate attribute in the ordered list that is present and truthy
(models chains like `getattr(r, "a", None) or getattr(r, "b", None)` followed
by an `if not x:` test). -/
def firstTruthy : List (Option String) → Option String
  | [] => none
  | o :: rest => if pyTruthy o then o else firstTruthy rest

/-- Python `str.strip()` restricted to its truthiness use in the source:
whitespace removed from both ends. -/
def pyStrip (s : String) : String :=
  String.mk (((s.data.dropWhile Char.isWhitespace).reverse.dropWhile Char.isWhitespace).reverse)

/-- Helper for `pySplitOnce` working on the character list. -/
def splitOnceChar (c : Char) : List Char → Option (List Char × List Char)
  | [] => none
  | x :: xs =>
    if x = c then some ([], xs)
    else
      match splitOnceChar c xs with
      | some (a, b) => some (x :: a, b)
      | none => none

/-- Python `s.split(c, 1)` fused with the preceding `if c in s:` test:
`some (before, after)` when the separator occurs, `none` otherwise. -/
def pySplitOnce (s : String) (c : Char) : Option (String × String) :=
  match splitOnceChar c s.data with
  | some (a, b) => some (String.mk a, String.mk b)
  | none => none

/-- Attribute bundle of a `function` attribute probed by the source
(`item.function.name`, `item.function.arguments`). -/
structure FunctionField where
  name : Option String
  arguments : Option ArgVal
deriving DecidableEq

/-- The `raw_item` of a `tool_call_item` (a `ResponseFunctionToolCall`):
the attributes the source probes on it. -/
structure RawToolCall where
  name : Option String
  tool_name : Option String
  function_name : Option String
  arguments : Option ArgVal
deriving DecidableEq

/-- A `tool_call_item` stream item with the attributes the source probes. -/
structure ToolCallRecord where
  raw_item : Option RawToolCall
  name : Option String
  tool_name : Option String
  function : Option FunctionField
  arguments : Option ArgVal
  args : Option ArgVal
deriving DecidableEq

/-- The `raw_item` of a `tool_call_output_item`: attributes the source probes. -/
structure RawToolOutput where
  name : Option String
  tool_name : Option String
  function_name : Option String
  tool_call_id : Option String
  output : Option String
  result : Option String
  content : Option String
deriving DecidableEq

/-- A `tool_call_output_item` stream item with the attributes the source probes. -/
structure ToolOutputRecord where
  raw_item : Option RawToolOutput
  name : Option String
  tool_name : Option String
  function : Option FunctionField
  output : Option String
  result : Option String
deriving DecidableEq

/-- A connected MCP server: its optional `name` attribute, its `str()`
representation, and the names of the tools it declares (`list_tools()` is
modelled as returning the declared tool list, as the source reads it). -/
structure MCPServer where
  name : Option String
  strRepr : String
  tools : List String
deriving DecidableEq

/-- Raw events of one turn as consumed by `run_with_stream_and_events`:
non-empty-checked text deltas, tool-call items, tool-output items, and
any other event type (logged and skipped by the source).  The end of the
list is the end of the stream (turn end). -/
inductive RawEvent
  | textDelta (delta : String)
  | toolCallItem (item : ToolCallRecord)
  | toolOutputItem (item : ToolOutputRecord)
  | otherEvent
deriving DecidableEq

/-- Presentation events yielded by `run_with_stream_and_events` (the dicts
with a `type` field): `think`, `text_delta`, `tool_call`, `tool_output`,
`complete`. -/
inductive PresentationEvent
  | think (content : String)
  | textDelta (content : String)
  | toolCall (tool_name : String) (arguments : ArgsMap)
  | toolOutput (tool_name : String) (output : Option String)
  | complete
deriving DecidableEq

/-- Tool-name extraction for a `tool_call_item` (agent_core.py lines
255-320): probe `raw_item.name`, `raw_item.tool_name`,
`raw_item.function_name`; then `item.name`, `item.tool_name`,
`item.function.name`; default `"unknown"`. -/
def ToolCallRecord.resolved_tool_name (item : ToolCallRecord) : String :=
  let fromRaw : Option String :=
    match item.raw_item with
    | some raw => firstTruthy [raw.name, raw.tool_name, raw.function_name]
    | none => none
  let cand : Option String :=
    match fromRaw with
    | some s => some s
    | none =>
      match firstTruthy [item.name, item.tool_name] with
      | some s => some s
      | none =>
        match item.function with
        | some f => f.name
        | none => none
  match cand with
  | some s => if s ≠ "" then s else "unknown"
  | none => "unknown"

/-- Argument extraction for a `tool_call_item` (agent_core.py lines
272-316): decode `raw_item.arguments` when it is truthy text (empty
mapping on decode failure); if the result is empty, fall back to
`item.arguments`, `item.args`, `item.function.arguments`, decoding text
the same way. -/
def ToolCallRecord.resolved_tool_args (dec : String → Option ArgsMap)
    (item : ToolCallRecord) : ArgsMap :=
  let fromRaw : ArgsMap :=
    match item.raw_item with
    | some raw =>
      match raw.arguments with
      | some a =>
        if a.pyTruthyA then
          match a with
          | .text s => (dec s).getD []
          | .mapping m => m
        else []
      | none => []
    | none => []
  if fromRaw ≠ [] then fromRaw
  else
    let picked : Option ArgVal :=
      (match item.arguments with
       | some a => if a.pyTruthyA then some a else none
       | none => none).orElse (fun _ =>
        (match item.args with
         | some a => if a.pyTruthyA then some a else none
         | none => none).orElse (fun _ =>
          match item.function with
          | some f => f.arguments
          | none => none))
    match picked with
    | some (.text s) => (dec s).getD []
    | some (.mapping m) => m
    | none => []

/-- Display name of an MCP server: `getattr(mcp_server, 'name', None) or
str(mcp_server)`. -/
def MCPServer.display_name (sv : MCPServer) : String :=
  match sv.name with
  | some n => if n ≠ "" then n else sv.strRepr
  | none => sv.strRepr

/-- Provider qualification (agent_core.py lines 324-340): split once on
`':'` when present; otherwise scan the connected servers' declared tools
for an exact match, the first server declaring the tool wins; otherwise
the provider is absent. -/
def resolveServerAndTool (servers : List MCPServer) (tool_name : String) :
    Option String × String :=
  match pySplitOnce tool_name ':' with
  | some (pre, post) => (some pre, post)
  | none =>
    match servers.find? (fun sv => sv.tools.contains tool_name) with
    | some sv => (some sv.display_name, tool_name)
    | none => (none, tool_name)

/-- Formatted tool name (agent_core.py line 343):
`f"{server_name}:{tool_name}" if server_name else tool_name`. -/
def formatToolName : Option String × String → String
  | (some s, tn) => if s ≠ "" then s ++ ":" ++ tn else tn
  | (none, tn) => tn

/-- Tool-name extraction for a `tool_call_output_item` (agent_core.py lines
358-407); the source computes it (and a server qualification for it) but
the emitted `tool_output` event ignores it. -/
def ToolOutputRecord.resolved_tool_name (item : ToolOutputRecord) : String :=
  let fromRaw : Option String :=
    match item.raw_item with
    | some raw =>
      firstTruthy [raw.name, raw.tool_name, raw.function_name, raw.tool_call_id]
    | none => none
  let cand : Option String :=
    match fromRaw with
    | some s => some s
    | none =>
      match firstTruthy [item.name, item.tool_name] with
      | some s => some s
      | none =>
        match item.function with
        | some f => f.name
        | none => none
  match cand with
  | some s => if s ≠ "" then s else "unknown"
  | none => "unknown"

/-- Output-value extraction for a `tool_call_output_item` (agent_core.py
lines 374-403): `raw_item.output` / `raw_item.result` / `raw_item.content`
(first non-None); if the result is falsy, fall back to `item.output` /
`item.result`. -/
def ToolOutputRecord.resolved_output (item : ToolOutputRecord) : Option String :=
  let fromRaw : Option String :=
    match item.raw_item with
    | some raw => raw.output.orElse (fun _ => raw.result.orElse (fun _ => raw.content))
    | none => none
  if pyTruthy fromRaw then fromRaw
  else
    match item.output.orElse (fun _ => item.result) with
    | some v => some v
    | none => fromRaw

/-- Per-turn local state of `run_with_stream_and_events` (agent_core.py
lines 191-197). -/
structure StreamState where
  current_text_buffer : String
  last_event_was_tool_call : Bool
  has_sent_think : Bool
  is_after_tool_output : Bool
  is_thinking_phase : Bool
  has_called_tool : Bool
  think_was_sent : Bool
deriving DecidableEq

/-- Initial per-turn state. -/
def initState : StreamState :=
  { current_text_buffer := ""
    last_event_was_tool_call := false
    has_sent_think := false
    is_after_tool_output := false
    is_thinking_phase := false
    has_called_tool := false
    think_was_sent := false }

/-- One iteration of the event loop of `run_with_stream_and_events`
(agent_core.py lines 199-440): the updated state and the events yielded
for this raw event. -/
def stepEvent (dec : String → Option ArgsMap) (servers : List MCPServer)
    (s : StreamState) : RawEvent → StreamState × List PresentationEvent
  | .textDelta d =>
    if d ≠ "" then
      let s1 := { s with current_text_buffer := s.current_text_buffer ++ d }
      if s1.is_after_tool_output then
        ({ s1 with last_event_was_tool_call := false }, [.textDelta d])
      else if !s1.has_sent_think then
        ({ s1 with is_thinking_phase := true, think_was_sent := true,
                   last_event_was_tool_call := false }, [.think d])
      else
        ({ s1 with last_event_was_tool_call := false }, [])
    else (s, [])
  | .toolCallItem item =>
    let s1 :=
      if !s.has_sent_think then
        { s with has_sent_think := true, is_thinking_phase := false }
      else s
    let s2 := { s1 with has_called_tool := true, current_text_buffer := "",
                        last_event_was_tool_call := true,
                        is_after_tool_output := false }
    (s2,
     [.toolCall (formatToolName (resolveServerAndTool servers item.resolved_tool_name))
                (item.resolved_tool_args dec)])
  | .toolOutputItem item =>
    ({ s with last_event_was_tool_call := false, is_after_tool_output := true },
     [.toolOutput "工具调用结果" item.resolved_output])
  | .otherEvent => (s, [])

/-- Fold of `stepEvent` over the whole raw stream: all events yielded in
the loop, together with the final state. -/
def processEvents (dec : String → Option ArgsMap) (servers : List MCPServer) :
    StreamState → List RawEvent → List PresentationEvent × StreamState
  | s, [] => ([], s)
  | s, e :: rest =>
    ((stepEvent dec servers s e).2 ++
       (processEvents dec servers (stepEvent dec servers s e).1 rest).1,
     (processEvents dec servers (stepEvent dec servers s e).1 rest).2)

/-- End-of-stream flush (agent_core.py lines 451-463): a final `text_delta`
carrying the buffer only when the stripped buffer is truthy, no tool output
was seen, no think was sent and no tool was called. -/
def finalFlush (s : StreamState) : List PresentationEvent :=
  if pyStrip s.current_text_buffer ≠ "" then
    if s.is_after_tool_output then []
    else if !s.think_was_sent && !s.has_called_tool then
      [.textDelta s.current_text_buffer]
    else []
  else []

/-- The full generator `run_with_stream_and_events` on one turn's raw
stream: loop events, then the end-of-stream flush, then `complete`. -/
def run_with_stream_and_events (dec : String → Option ArgsMap)
    (servers : List MCPServer) (raws : List RawEvent) : List PresentationEvent :=
  (processEvents dec servers initState raws).1 ++
    finalFlush (processEvents dec servers initState raws).2 ++
    [.complete]

/-- A `ReactAgent` as far as the classifier consults it: its connected MCP
servers (model provider and session are not read by the event loop). -/
structure ReactAgent where
  mcp_servers : List MCPServer

/-- The classifier run as the method of an agent instance. -/
def ReactAgent.runStreamEvents (a : ReactAgent) (dec : String → Option ArgsMap)
    (raws : List RawEvent) : List PresentationEvent :=
  run_with_stream_and_events dec a.mcp_servers raws

/-- Per-message state of the websocket relay loop in
`WebSocketHandler._handle_user_message` (web_api.py lines 187-189). -/
structure AdapterState where
  has_tool_call : Bool
  has_tool_output : Bool
  think_was_converted : Bool
deriving DecidableEq

/-- Initial relay-loop state. -/
def adapterInit : AdapterState := ⟨false, false, false⟩

/-- One iteration of the relay loop (web_api.py lines 191-236): the wire
messages sent for one presentation event (a `think` event is sent with the
`text_delta` wire type and the same content; some `text_delta` events are
suppressed). -/
def handleEventStep (st : AdapterState) :
    PresentationEvent → AdapterState × List PresentationEvent
  | .think c => ({ st with think_was_converted := true }, [.textDelta c])
  | .toolCall n a =>
    ({ st with has_tool_call := true, think_was_converted := false },
     [.toolCall n a])
  | .toolOutput n o => ({ st with has_tool_output := true }, [.toolOutput n o])
  | .textDelta c =>
    if st.think_was_converted && !st.has_tool_call then (st, [])
    else if st.has_tool_output then (st, [.textDelta c])
    else if !st.think_was_converted && !st.has_tool_call then (st, [.textDelta c])
    else (st, [])
  | .complete => (st, [.complete])

/-- Fold of `handleEventStep` over the classifier output, returning the wire
messages and the final relay state. -/
def relayEventsAux : AdapterState → List PresentationEvent →
    List PresentationEvent × AdapterState
  | st, [] => ([], st)
  | st, e :: rest =>
    ((handleEventStep st e).2 ++ (relayEventsAux (handleEventStep st e).1 rest).1,
     (relayEventsAux (handleEventStep st e).1 rest).2)

/-- Wire messages sent by `_handle_user_message` for one turn. -/
def handle_user_message (dec : String → Option ArgsMap)
    (servers : List MCPServer) (raws : List RawEvent) : List PresentationEvent :=
  (relayEventsAux adapterInit (run_with_stream_and_events dec servers raws)).1

/-- The socket adapter's remap of a presentation event onto its wire
message: `think` is sent with the `text_delta` wire type, everything else
unchanged. -/
def thinkToTextDelta : PresentationEvent → PresentationEvent
  | .think c => .textDelta c
  | e => e

/-- Concatenation of the text carried by all `think` and `text_delta`
events, in emission order. -/
def outputTextConcat : List PresentationEvent → String
  | [] => ""
  | .think c :: rest => c ++ outputTextConcat rest
  | .textDelta c :: rest => c ++ outputTextConcat rest
  | _ :: rest => outputTextConcat rest

/-- Concatenation of all text-fragment deltas of the raw stream in source
order (an empty delta contributes nothing). -/
def sourceTextConcat : List RawEvent → String
  | [] => ""
  | .textDelta d :: rest => d ++ sourceTextConcat rest
  | _ :: rest => sourceTextConcat rest

/-- Deltas the classifier actually forwards, starting from the given
`has_called_tool` / `is_after_tool_output` flags: a delta is kept when it
arrives after a tool output or before the first tool call, and dropped in
the tool-pending window between a tool call and the next tool output. -/
def keptTextFrom (has_called_tool is_after_tool_output : Bool) :
    List RawEvent → String
  | [] => ""
  | .textDelta d :: rest =>
    (if is_after_tool_output || !has_called_tool then d else "") ++
      keptTextFrom has_called_tool is_after_tool_output rest
  | .toolCallItem _ :: rest => keptTextFrom true false rest
  | .toolOutputItem _ :: rest => keptTextFrom has_called_tool true rest
  | .otherEvent :: rest => keptTextFrom has_called_tool is_after_tool_output rest

/-- Well-formedness of a raw stream: every tool-output item is preceded by
some tool-call item (given that `started` already holds at entry). -/
def resultsPrecededByStart (started : Bool) : List RawEvent → Bool
  | [] => true
  | .toolOutputItem _ :: rest => started && resultsPrecededByStart started rest
  | .toolCallItem _ :: rest => resultsPrecededByStart true rest
  | _ :: rest => resultsPrecededByStart started rest

/-- Recognizer for `think` events. -/
def PresentationEvent.isThink : PresentationEvent → Bool
  | .think _ => true
  | _ => false

/-- Scan of a presentation sequence: true when no `think` event occurs
after the first `tool_call` event. -/
def noThinkAfterFirstToolCall : List PresentationEvent → Bool
  | [] => true
  | .toolCall _ _ :: rest => rest.all (fun e => !e.isThink)
  | _ :: rest => noThinkAfterFirstToolCall rest

/-! ### Concrete records used by scenario theorems and witnesses -/

/-- Decoder that fails on every input (models `json.loads` on undecodable text). -/
def dec0 : String → Option ArgsMap := fun _ => none

/-- Raw record of a tool call named `"x"` with no arguments field. -/
def rawCallX : RawToolCall :=
  { name := some "x", tool_name := none, function_name := none, arguments := none }

/-- Stream item wrapping `rawCallX`. -/
def itemCallX : ToolCallRecord :=
  { raw_item := some rawCallX, name := none, tool_name := none,
    function := none, arguments := none, args := none }

/-- Raw record of a tool output with payload `"ok"`. -/
def rawOutOk : RawToolOutput :=
  { name := some "x", tool_name := none, function_name := none,
    tool_call_id := none, output := some "ok", result := none, content := none }

/-- Stream item wrapping `rawOutOk`. -/
def itemOutOk : ToolOutputRecord :=
  { raw_item := some rawOutOk, name := none, tool_name := none,
    function := none, output := none, result := none }

/-- Scenario stream of C2: a tool call, a buffered fragment, the tool result,
then turn end. -/
def ex1 : List RawEvent :=
  [.toolCallItem itemCallX, .textDelta "partial", .toolOutputItem itemOutOk]

/-- Scenario stream of C3: a tool call whose result never arrives, with a
buffered fragment, then turn end. -/
def ex2 : List RawEvent := [.toolCallItem itemCallX, .textDelta "partial"]

/-- Happy-path stream: thinking, tool call, tool result, final answer. -/
def ex3 : List RawEvent :=
  [.textDelta "Let me check", .toolCallItem itemCallX, .toolOutputItem itemOutOk,
   .textDelta "The answer is 42"]

/-- Connected provider named `"files"` declaring the tool `"read"`. -/
def filesServer : MCPServer := { name := some "files", strRepr := "files-server", tools := ["read"] }

/-- Raw record of a tool call whose arguments field is the undecodable
text `"\x7bnot json"`. -/
def rawBadArgs : RawToolCall :=
  { name := some "x", tool_name := none, function_name := none,
    arguments := some (.text "\x7bnot json") }

/-- Stream item wrapping `rawBadArgs`, with no fallback argument source. -/
def itemBadArgs : ToolCallRecord :=
  { raw_item := some rawBadArgs, name := none, tool_name := none,
    function := none, arguments := none, args := none }

/-! ### Step characterization lemmas -/

variable (dec : String → Option ArgsMap) (servers : List MCPServer)

/-- An empty delta changes nothing and emits nothing. -/
theorem step_textDelta_empty (s : StreamState) :
    stepEvent dec servers s (.textDelta "") = (s, []) := by
  simp [stepEvent]

/-- A non-empty delta after a tool output is streamed as `text_delta`. -/
theorem step_textDelta_after (s : StreamState) (d : String)
    (hd : d ≠ "") (h : s.is_after_tool_output = true) :
    stepEvent dec servers s (.textDelta d) =
      ({ s with current_text_buffer := s.current_text_buffer ++ d,
                last_event_was_tool_call := false }, [.textDelta d]) := by
  simp [stepEvent, hd, h]

/-- A non-empty delta before any think has been marked sent is streamed as
`think`. -/
theorem step_textDelta_think (s : StreamState) (d : String)
    (hd : d ≠ "") (h1 : s.is_after_tool_output = false)
    (h2 : s.has_sent_think = false) :
    stepEvent dec servers s (.textDelta d) =
      ({ s with current_text_buffer := s.current_text_buffer ++ d,
                is_thinking_phase := true, think_was_sent := true,
                last_event_was_tool_call := false }, [.think d]) := by
  simp [stepEvent, hd, h1, h2]

/-- A non-empty delta in the tool-pending window is buffered and not emitted. -/
theorem step_textDelta_buffered (s : StreamState) (d : String)
    (hd : d ≠ "") (h1 : s.is_after_tool_output = false)
    (h2 : s.has_sent_think = true) :
    stepEvent dec servers s (.textDelta d) =
      ({ s with current_text_buffer := s.current_text_buffer ++ d,
                last_event_was_tool_call := false }, []) := by
  simp [stepEvent, hd, h1, h2]

/-- A tool-call item clears the buffer, marks the flags, and emits exactly
one `tool_call` event. -/
theorem step_toolCall (s : StreamState) (item : ToolCallRecord) :
    stepEvent dec servers s (.toolCallItem item) =
      ({ current_text_buffer := "", last_event_was_tool_call := true,
         has_sent_think := true, is_after_tool_output := false,
         is_thinking_phase := s.has_sent_think && s.is_thinking_phase,
         has_called_tool := true, think_was_sent := s.think_was_sent },
       [.toolCall (formatToolName (resolveServerAndTool servers item.resolved_tool_name))
                  (item.resolved_tool_args dec)]) := by
  cases hs : s.has_sent_think <;> simp [stepEvent, hs]

/-- A tool-output item marks `is_after_tool_output` and emits exactly one
`tool_output` event whose `tool_name` is the fixed literal. -/
theorem step_toolOutput (s : StreamState) (item : ToolOutputRecord) :
    stepEvent dec servers s (.toolOutputItem item) =
      ({ s with last_event_was_tool_call := false, is_after_tool_output := true },
       [.toolOutput "工具调用结果" item.resolved_output]) := rfl

/-- Any other event type is skipped. -/
theorem step_other (s : StreamState) :
    stepEvent dec servers s .otherEvent = (s, []) := rfl

/-! ### Reachability invariant and the dead end-of-stream flush -/

/-- Invariant holding in every state reachable from `initState`:
`has_sent_think` tracks `has_called_tool` exactly, and before any tool call
a non-empty buffer implies that a think was already streamed or that a tool
output was seen. -/
def ReachInv (s : StreamState) : Prop :=
  s.has_sent_think = s.has_called_tool ∧
  (s.has_called_tool = false →
    s.current_text_buffer = "" ∨ s.think_was_sent = true ∨
      s.is_after_tool_output = true)

theorem reachInv_init : ReachInv initState := by
  constructor <;> simp [initState]

theorem stepEvent_reachInv (e : RawEvent) (s : StreamState) (h : ReachInv s) :
    ReachInv (stepEvent dec servers s e).1 := by
  obtain ⟨h1, h2⟩ := h
  cases e with
  | textDelta d =>
    by_cases hd : d = ""
    · subst hd; rw [step_textDelta_empty]; exact ⟨h1, h2⟩
    · cases ha : s.is_after_tool_output with
      | true =>
        rw [step_textDelta_after dec servers s d hd ha]
        exact ⟨h1, fun _ => Or.inr (Or.inr ha)⟩
      | false =>
        cases hs : s.has_sent_think with
        | false =>
          rw [step_textDelta_think dec servers s d hd ha hs]
          exact ⟨h1, fun _ => Or.inr (Or.inl rfl)⟩
        | true =>
          rw [step_textDelta_buffered dec servers s d hd ha hs]
          refine ⟨h1, ?_⟩
          intro hc
          have hc2 : s.has_called_tool = false := hc
          rw [hc2] at h1
          rw [h1] at hs
          exact absurd hs (by simp)
  | toolCallItem item =>
    rw [step_toolCall]
    exact ⟨rfl, by intro hc; exact absurd hc (by simp)⟩
  | toolOutputItem item =>
    rw [step_toolOutput]
    exact ⟨h1, fun _ => Or.inr (Or.inr rfl)⟩
  | otherEvent =>
    rw [step_other]
    exact ⟨h1, h2⟩

theorem processEvents_reachInv (raws : List RawEvent) :
    ∀ (s : StreamState), ReachInv s → ReachInv (processEvents dec servers s raws).2 := by
  induction raws with
  | nil => intro s h; exact h
  | cons e rest ih =>
    intro s h
    exact ih _ (stepEvent_reachInv dec servers e s h)

/-- The stripped empty string is empty. -/
theorem pyStrip_empty : pyStrip "" = "" := rfl

/-- On every reachable final state the end-of-stream flush emits nothing:
either the buffer content was already streamed, or a think was sent, or a
tool was called. -/
theorem finalFlush_empty_of_reachInv (s : StreamState) (h : ReachInv s) :
    finalFlush s = [] := by
  obtain ⟨h1, h2⟩ := h
  unfold finalFlush
  split_ifs with c1 c2 c3
  · rfl
  · exfalso
    have hts : s.think_was_sent = false ∧ s.has_called_tool = false := by
      constructor
      · by_contra hx
        have : s.think_was_sent = true := by
          cases hv : s.think_was_sent
          · exact absurd hv hx
          · rfl
        simp [this] at c3
      · by_contra hx
        have : s.has_called_tool = true := by
          cases hv : s.has_called_tool
          · exact absurd hv hx
          · rfl
        simp [this] at c3
    rcases h2 hts.2 with hb | ht | ha
    · rw [hb, pyStrip_empty] at c1; exact c1 rfl
    · rw [ht] at hts; exact absurd hts.1 (by simp)
    · exact absurd ha (by simp [c2])
  · rfl
  · rfl

/-- From the initial state the whole generator output is the loop output
followed by the single `complete`. -/
theorem run_eq_loop (raws : List RawEvent) :
    run_with_stream_and_events dec servers raws =
      (processEvents dec servers initState raws).1 ++ [PresentationEvent.complete] := by
  unfold run_with_stream_and_events
  rw [finalFlush_empty_of_reachInv
        (processEvents dec servers initState raws).2
        (processEvents_reachInv dec servers raws initState reachInv_init)]
  simp

/-! ### Text accounting -/

theorem outputTextConcat_append (a b : List PresentationEvent) :
    outputTextConcat (a ++ b) = outputTextConcat a ++ outputTextConcat b := by
  induction a with
  | nil => simp [outputTextConcat]
  | cons e rest ih =>
    cases e <;> simp [outputTextConcat, ih, String.append_assoc]

/-- Unfolding of one loop iteration. -/
theorem processEvents_cons (s : StreamState) (e : RawEvent) (rest : List RawEvent) :
    processEvents dec servers s (e :: rest) =
      ((stepEvent dec servers s e).2 ++
          (processEvents dec servers (stepEvent dec servers s e).1 rest).1,
       (processEvents dec servers (stepEvent dec servers s e).1 rest).2) := rfl

/-- The text carried by the loop output from any state whose
`has_sent_think` flag agrees with `has_called_tool` is exactly the kept
source text from that state's flags. -/
theorem processEvents_textConcat (raws : List RawEvent) :
    ∀ (s : StreamState), s.has_sent_think = s.has_called_tool →
    outputTextConcat (processEvents dec servers s raws).1 =
      keptTextFrom s.has_called_tool s.is_after_tool_output raws := by
  induction raws with
  | nil => intro s _; rfl
  | cons e rest ih =>
    intro s h
    rw [processEvents_cons]
    cases e with
    | textDelta d =>
      by_cases hd : d = ""
      · subst hd
        rw [step_textDelta_empty]
        simp only [List.nil_append, keptTextFrom]
        rw [ih s h]
        simp
      · cases ha : s.is_after_tool_output with
        | true =>
          rw [step_textDelta_after dec servers s d hd ha]
          simp only [List.singleton_append, outputTextConcat, List.append_eq, List.nil_append]
          rw [ih _ (by simpa using h)]
          simp [keptTextFrom, ha]
        | false =>
          cases hs : s.has_sent_think with
          | false =>
            have hc : s.has_called_tool = false := by rw [← h]; exact hs
            rw [step_textDelta_think dec servers s d hd ha hs]
            simp only [List.singleton_append, outputTextConcat, List.append_eq, List.nil_append]
            rw [ih _ (by simpa using h)]
            simp [keptTextFrom, ha, hc]
          | true =>
            have hc : s.has_called_tool = true := by rw [← h]; exact hs
            rw [step_textDelta_buffered dec servers s d hd ha hs]
            simp only [List.append_eq, List.nil_append]
            rw [ih _ (by simpa using h)]
            simp [keptTextFrom, ha, hc]
    | toolCallItem item =>
      rw [step_toolCall]
      simp only [List.singleton_append, outputTextConcat, keptTextFrom, List.append_eq,
        List.nil_append]
      exact ih _ rfl
    | toolOutputItem item =>
      rw [step_toolOutput]
      simp only [List.singleton_append, outputTextConcat, keptTextFrom, List.append_eq,
        List.nil_append]
      exact ih _ h
    | otherEvent =>
      rw [step_other]
      simp only [List.append_eq, List.nil_append, keptTextFrom]
      exact ih _ h

/-! ### Position of the `complete` event -/

theorem complete_notin_process (raws : List RawEvent) :
    ∀ (s : StreamState),
      PresentationEvent.complete ∉ (processEvents dec servers s raws).1 := by
  induction raws with
  | nil => intro s; simp [processEvents]
  | cons e rest ih =>
    intro s
    rw [processEvents_cons]
    intro hmem
    rcases List.mem_append.mp hmem with h1 | h2
    · cases e with
      | textDelta d =>
        by_cases hd : d = ""
        · subst hd; rw [step_textDelta_empty] at h1; simp at h1
        · cases ha : s.is_after_tool_output with
          | true => rw [step_textDelta_after dec servers s d hd ha] at h1; simp at h1
          | false =>
            cases hs : s.has_sent_think with
            | false => rw [step_textDelta_think dec servers s d hd ha hs] at h1; simp at h1
            | true => rw [step_textDelta_buffered dec servers s d hd ha hs] at h1; simp at h1
      | toolCallItem item => rw [step_toolCall] at h1; simp at h1
      | toolOutputItem item => rw [step_toolOutput] at h1; simp at h1
      | otherEvent => rw [step_other] at h1; simp at h1
    · exact ih _ h2

/-! ### No think after the first tool call -/

theorem all_nonthink_of_sent (raws : List RawEvent) :
    ∀ (s : StreamState), s.has_sent_think = true →
      ((processEvents dec servers s raws).1).all (fun e => !e.isThink) = true := by
  induction raws with
  | nil => intro s _; simp [processEvents]
  | cons e rest ih =>
    intro s h
    rw [processEvents_cons]
    simp only [List.all_append, Bool.and_eq_true]
    cases e with
    | textDelta d =>
      by_cases hd : d = ""
      · subst hd; rw [step_textDelta_empty]
        exact ⟨by simp, ih s h⟩
      · cases ha : s.is_after_tool_output with
        | true =>
          rw [step_textDelta_after dec servers s d hd ha]
          exact ⟨by simp [PresentationEvent.isThink], ih _ h⟩
        | false =>
          cases hs : s.has_sent_think with
          | false => rw [hs] at h; exact absurd h (by simp)
          | true =>
            rw [step_textDelta_buffered dec servers s d hd ha hs]
            exact ⟨by simp, ih _ h⟩
    | toolCallItem item =>
      rw [step_toolCall]
      exact ⟨by simp [PresentationEvent.isThink], ih _ rfl⟩
    | toolOutputItem item =>
      rw [step_toolOutput]
      exact ⟨by simp [PresentationEvent.isThink], ih _ h⟩
    | otherEvent =>
      rw [step_other]
      exact ⟨by simp, ih _ h⟩

theorem scan_of_all_nonthink :
    ∀ (l : List PresentationEvent), l.all (fun e => !e.isThink) = true →
      noThinkAfterFirstToolCall l = true := by
  intro l
  induction l with
  | nil => intro _; rfl
  | cons e rest ih =>
    intro h
    simp only [List.all_cons, Bool.and_eq_true] at h
    cases e with
    | toolCall n a => simpa [noThinkAfterFirstToolCall] using h.2
    | think c => simp [PresentationEvent.isThink] at h
    | textDelta c => simpa [noThinkAfterFirstToolCall] using ih h.2
    | toolOutput n o => simpa [noThinkAfterFirstToolCall] using ih h.2
    | complete => simpa [noThinkAfterFirstToolCall] using ih h.2

theorem noThink_process (raws : List RawEvent) :
    ∀ (s : StreamState) (suffix : List PresentationEvent),
      suffix.all (fun e => !e.isThink) = true →
      noThinkAfterFirstToolCall ((processEvents dec servers s raws).1 ++ suffix) = true := by
  induction raws with
  | nil =>
    intro s suffix h
    simpa [processEvents] using scan_of_all_nonthink suffix h
  | cons e rest ih =>
    intro s suffix h
    rw [processEvents_cons]
    cases e with
    | textDelta d =>
      by_cases hd : d = ""
      · subst hd; rw [step_textDelta_empty]
        simpa using ih s suffix h
      · cases ha : s.is_after_tool_output with
        | true =>
          rw [step_textDelta_after dec servers s d hd ha]
          simpa [noThinkAfterFirstToolCall] using ih _ suffix h
        | false =>
          cases hs : s.has_sent_think with
          | false =>
            rw [step_textDelta_think dec servers s d hd ha hs]
            simpa [noThinkAfterFirstToolCall] using ih _ suffix h
          | true =>
            rw [step_textDelta_buffered dec servers s d hd ha hs]
            simpa using ih _ suffix h
    | toolCallItem item =>
      rw [step_toolCall]
      simp only [List.singleton_append, List.cons_append, noThinkAfterFirstToolCall,
        List.append_eq, List.nil_append, List.all_append, Bool.and_eq_true]
      exact ⟨all_nonthink_of_sent dec servers rest _ rfl, h⟩
    | toolOutputItem item =>
      rw [step_toolOutput]
      simpa [noThinkAfterFirstToolCall] using ih _ suffix h
    | otherEvent =>
      rw [step_other]
      simpa using ih _ suffix h

/-! ### The fixed tool-output display name -/

theorem toolOutput_name_process (raws : List RawEvent) :
    ∀ (s : StreamState) (n : String) (o : Option String),
      PresentationEvent.toolOutput n o ∈ (processEvents dec servers s raws).1 →
      n = "工具调用结果" := by
  induction raws with
  | nil => intro s n o h; simp [processEvents] at h
  | cons e rest ih =>
    intro s n o hmem
    rw [processEvents_cons] at hmem
    rcases List.mem_append.mp hmem with h1 | h2
    · cases e with
      | textDelta d =>
        by_cases hd : d = ""
        · subst hd; rw [step_textDelta_empty] at h1; simp at h1
        · cases ha : s.is_after_tool_output with
          | true => rw [step_textDelta_after dec servers s d hd ha] at h1; simp at h1
          | false =>
            cases hs : s.has_sent_think with
            | false => rw [step_textDelta_think dec servers s d hd ha hs] at h1; simp at h1
            | true => rw [step_textDelta_buffered dec servers s d hd ha hs] at h1; simp at h1
      | toolCallItem item => rw [step_toolCall] at h1; simp at h1
      | toolOutputItem item =>
        rw [step_toolOutput] at h1
        simp only [List.mem_singleton, PresentationEvent.toolOutput.injEq] at h1
        exact h1.1
      | otherEvent => rw [step_other] at h1; simp at h1
    · exact ih _ n o h2

/-! ### Relay faithfulness -/

/-- Unfolding of one relay iteration. -/
theorem relayEventsAux_cons (st : AdapterState) (e : PresentationEvent)
    (rest : List PresentationEvent) :
    relayEventsAux st (e :: rest) =
      ((handleEventStep st e).2 ++ (relayEventsAux (handleEventStep st e).1 rest).1,
       (relayEventsAux (handleEventStep st e).1 rest).2) := rfl

theorem relayEventsAux_append (a : List PresentationEvent) :
    ∀ (b : List PresentationEvent) (st : AdapterState),
      relayEventsAux st (a ++ b) =
        ((relayEventsAux st a).1 ++ (relayEventsAux (relayEventsAux st a).2 b).1,
         (relayEventsAux (relayEventsAux st a).2 b).2) := by
  induction a with
  | nil => intro b st; simp [relayEventsAux]
  | cons e rest ih =>
    intro b st
    rw [List.cons_append, relayEventsAux_cons, relayEventsAux_cons]
    rw [ih b (handleEventStep st e).1]
    simp

/-- Coupling invariant between the classifier state and the relay-loop
state while both consume the same turn. -/
def RelayInv (s : StreamState) (st : AdapterState) : Prop :=
  st.has_tool_call = s.has_called_tool ∧
  s.has_sent_think = s.has_called_tool ∧
  st.think_was_converted = (s.think_was_sent && !s.has_called_tool) ∧
  (s.is_after_tool_output = true → st.has_tool_output = true) ∧
  (s.is_after_tool_output = true → s.has_called_tool = true)

theorem relayInv_init : RelayInv initState adapterInit := by
  refine ⟨rfl, rfl, rfl, ?_, ?_⟩ <;> intro hx <;> exact absurd hx (by simp [initState])

/-- Along any well-formed raw stream the relay forwards every classifier
loop event, remapping `think` onto the `text_delta` wire type, and the
coupling invariant is maintained. -/
theorem relay_process (raws : List RawEvent) :
    ∀ (s : StreamState) (st : AdapterState),
      RelayInv s st →
      resultsPrecededByStart s.has_called_tool raws = true →
      (relayEventsAux st (processEvents dec servers s raws).1).1 =
        ((processEvents dec servers s raws).1).map thinkToTextDelta ∧
      RelayInv (processEvents dec servers s raws).2
        (relayEventsAux st (processEvents dec servers s raws).1).2 := by
  induction raws with
  | nil =>
    intro s st hinv _
    exact ⟨rfl, hinv⟩
  | cons e rest ih =>
    intro s st hinv hwf
    obtain ⟨i1, i2, i3, i4, i5⟩ := hinv
    rw [processEvents_cons]
    cases e with
    | textDelta d =>
      have hwf2 : resultsPrecededByStart s.has_called_tool rest = true := by
        simpa [resultsPrecededByStart] using hwf
      by_cases hd : d = ""
      · subst hd
        rw [step_textDelta_empty]
        simpa using ih s st ⟨i1, i2, i3, i4, i5⟩ hwf2
      · cases ha : s.is_after_tool_output with
        | true =>
          rw [step_textDelta_after dec servers s d hd ha]
          have hct : s.has_called_tool = true := i5 ha
          have hto : st.has_tool_output = true := i4 ha
          have hstep : handleEventStep st (.textDelta d) = (st, [.textDelta d]) := by
            have htc : st.has_tool_call = true := by rw [i1]; exact hct
            simp [handleEventStep, htc, hto]
          rw [List.singleton_append, relayEventsAux_cons, hstep]
          have ihr := ih
            { s with current_text_buffer := s.current_text_buffer ++ d,
                     last_event_was_tool_call := false } st
            ⟨by simpa using i1, by simpa using i2, by simpa using i3,
             by intro hx; exact hto, by intro hx; simpa using hct⟩
            (by simpa using hwf2)
          simp only [List.singleton_append, List.map_cons, thinkToTextDelta]
          exact ⟨by rw [ihr.1], ihr.2⟩
        | false =>
          cases hs : s.has_sent_think with
          | false =>
            have hct : s.has_called_tool = false := by rw [← i2]; exact hs
            rw [step_textDelta_think dec servers s d hd ha hs]
            have hstep : handleEventStep st (.think d) =
                ({ st with think_was_converted := true }, [.textDelta d]) := rfl
            rw [List.singleton_append, relayEventsAux_cons, hstep]
            have ihr := ih
              { s with current_text_buffer := s.current_text_buffer ++ d,
                       is_thinking_phase := true, think_was_sent := true,
                       last_event_was_tool_call := false }
              ({ st with think_was_converted := true })
              ⟨by simpa using i1, by simpa using i2, by simp [hct],
               by simpa using i4, by simpa using i5⟩
              (by simpa using hwf2)
            simp only [List.singleton_append, List.map_cons, thinkToTextDelta]
            exact ⟨by rw [ihr.1], ihr.2⟩
          | true =>
            rw [step_textDelta_buffered dec servers s d hd ha hs]
            rw [List.nil_append]
            have ihr := ih
              { s with current_text_buffer := s.current_text_buffer ++ d,
                       last_event_was_tool_call := false } st
              ⟨by simpa using i1, by simpa using i2, by simpa using i3,
               by simpa using i4, by simpa using i5⟩
              (by simpa using hwf2)
            simpa using ihr
    | toolCallItem item =>
      have hwf2 : resultsPrecededByStart true rest = true := by
        simpa [resultsPrecededByStart] using hwf
      rw [step_toolCall]
      have hstep : handleEventStep st
          (.toolCall (formatToolName (resolveServerAndTool servers item.resolved_tool_name))
            (item.resolved_tool_args dec)) =
          ({ st with has_tool_call := true, think_was_converted := false },
           [.toolCall (formatToolName (resolveServerAndTool servers item.resolved_tool_name))
              (item.resolved_tool_args dec)]) := rfl
      rw [List.singleton_append, relayEventsAux_cons, hstep]
      have ihr := ih
        { current_text_buffer := "", last_event_was_tool_call := true,
          has_sent_think := true, is_after_tool_output := false,
          is_thinking_phase := s.has_sent_think && s.is_thinking_phase,
          has_called_tool := true, think_was_sent := s.think_was_sent }
        ({ st with has_tool_call := true, think_was_converted := false })
        ⟨rfl, rfl, by simp, by intro hx; exact absurd hx (by simp),
         by intro hx; rfl⟩ (by simpa using hwf2)
      simp only [List.singleton_append, List.map_cons, thinkToTextDelta]
      exact ⟨by rw [ihr.1], ihr.2⟩
    | toolOutputItem item =>
      have hwf0 : s.has_called_tool = true ∧
          resultsPrecededByStart s.has_called_tool rest = true := by
        have hx := hwf
        simp only [resultsPrecededByStart, Bool.and_eq_true] at hx
        exact hx
      rw [step_toolOutput]
      have hstep : handleEventStep st (.toolOutput "工具调用结果" item.resolved_output) =
          ({ st with has_tool_output := true },
           [.toolOutput "工具调用结果" item.resolved_output]) := rfl
      rw [List.singleton_append, relayEventsAux_cons, hstep]
      have ihr := ih
        { s with last_event_was_tool_call := false, is_after_tool_output := true }
        ({ st with has_tool_output := true })
        ⟨by simpa using i1, by simpa using i2, by simpa using i3, by intro hx; rfl,
         by intro hx; simpa using hwf0.1⟩ (by simpa using hwf0.2)
      simp only [List.singleton_append, List.map_cons, thinkToTextDelta]
      exact ⟨by rw [ihr.1], ihr.2⟩
    | otherEvent =>
      have hwf2 : resultsPrecededByStart s.has_called_tool rest = true := by
        simpa [resultsPrecededByStart] using hwf
      rw [step_other]
      rw [List.nil_append]
      simpa using ih s st ⟨i1, i2, i3, i4, i5⟩ hwf2

/-! ### Remaining flush helpers -/

theorem complete_notin_flush (s : StreamState) :
    PresentationEvent.complete ∉ finalFlush s := by
  unfold finalFlush
  split_ifs <;> simp

theorem flush_all_nonthink (s : StreamState) :
    ((finalFlush s).all (fun e => !e.isThink)) = true := by
  unfold finalFlush
  split_ifs <;> simp [PresentationEvent.isThink]

/-! ### Claim theorems -/

/-- Claim C1, counterexample: on the stream
`[ToolInvocationStart(x), TextFragment("partial"), ToolInvocationResult(ok), TurnEnd]`
the concatenated `think`/`text_delta` text of the output is empty while the
source fragments concatenate to `"partial"`: the fragment buffered in the
tool-pending window is lost, so the claimed concatenation equality fails. -/
theorem think_answer_text_loses_pending_fragment :
    outputTextConcat (run_with_stream_and_events dec0 [] ex1) ≠ sourceTextConcat ex1 := by
  decide

/-- Claim C1 (corrected): the concatenation of the text carried by all
`think` and `text_delta` events, in emission order, equals the concatenation
of exactly those non-empty deltas that arrive before the first tool call or
after a tool output; deltas arriving in the tool-pending window between a
tool call and the next tool output are dropped and never emitted, and no
delta is emitted twice. -/
theorem think_answer_text_equals_kept_fragments (dec : String → Option ArgsMap)
    (servers : List MCPServer) (raws : List RawEvent) :
    outputTextConcat (run_with_stream_and_events dec servers raws) =
      keptTextFrom false false raws := by
  rw [run_eq_loop, outputTextConcat_append]
  have h := processEvents_textConcat dec servers raws initState rfl
  simpa [outputTextConcat] using h

/-- Claim C2, counterexample: on the stream
`[ToolInvocationStart(x), TextFragment("partial"), ToolInvocationResult(ok), TurnEnd]`
no `text_delta` ("Answer") event carrying `"partial"` is ever emitted, so
the claimed output `[ToolCall, ToolResult, Answer("partial"), Complete]`
is wrong. -/
theorem tool_result_scenario_no_answer_event :
    PresentationEvent.textDelta "partial" ∉ run_with_stream_and_events dec0 [] ex1 := by
  decide

/-- Claim C2 (corrected): when a tool-invocation result arrives, the
classifier emits only the `tool_output` event and leaves the pending-text
buffer unemitted (the buffered text is later discarded, not flushed); on
the scenario input the output is `[ToolCall(x), ToolResult(ok), Complete]`
with no Answer event. -/
theorem tool_result_keeps_buffer_unflushed (dec : String → Option ArgsMap)
    (servers : List MCPServer) :
    (∀ (s : StreamState) (item : ToolOutputRecord),
        (stepEvent dec servers s (.toolOutputItem item)).2 =
          [PresentationEvent.toolOutput "工具调用结果" item.resolved_output]) ∧
    run_with_stream_and_events dec0 [] ex1 =
      [PresentationEvent.toolCall "x" [],
       PresentationEvent.toolOutput "工具调用结果" (some "ok"),
       PresentationEvent.complete] := by
  constructor
  · intro s item; rw [step_toolOutput]
  · decide

/-- Claim C3, counterexample: on the stream
`[ToolInvocationStart(x), TextFragment("partial"), TurnEnd]` (tool call
never resolved) the buffered text is not emitted before `complete`, so
the claimed final flush does not happen. -/
theorem turn_end_tool_pending_no_flush_event :
    PresentationEvent.textDelta "partial" ∉ run_with_stream_and_events dec0 [] ex2 := by
  decide

/-- Claim C3 (corrected): if the raw stream ends while a tool call has been
made (in particular while one is still pending with a non-empty buffer),
the buffered text is silently dropped: the turn output is the loop output
followed immediately by `complete`, with no flushed text event. -/
theorem turn_end_tool_pending_drops_buffer (dec : String → Option ArgsMap)
    (servers : List MCPServer) (raws : List RawEvent)
    (h : (processEvents dec servers initState raws).2.has_called_tool = true) :
    run_with_stream_and_events dec servers raws =
      (processEvents dec servers initState raws).1 ++ [PresentationEvent.complete] := by
  unfold run_with_stream_and_events
  have hf : finalFlush (processEvents dec servers initState raws).2 = [] := by
    unfold finalFlush
    split_ifs with c1 c2 c3
    · rfl
    · exfalso
      rw [h] at c3
      simp at c3
    · rfl
    · rfl
  rw [hf]
  simp

/-- Witness for C3: the hypothesis is satisfiable and the conclusion holds
on the concrete pending-tool stream `ex2`. -/
theorem turn_end_tool_pending_drops_buffer_witness :
    run_with_stream_and_events dec0 [] ex2 =
      (processEvents dec0 [] initState ex2).1 ++ [PresentationEvent.complete] :=
  turn_end_tool_pending_drops_buffer dec0 [] ex2 (by decide)

/-- Claim C4 (confirmed): for every raw event sequence the presentation
output is finite and ends with exactly one `complete` event, which is the
last event emitted. -/
theorem output_ends_with_single_complete (dec : String → Option ArgsMap)
    (servers : List MCPServer) (raws : List RawEvent) :
    ∃ l, run_with_stream_and_events dec servers raws = l ++ [PresentationEvent.complete] ∧
      PresentationEvent.complete ∉ l := by
  refine ⟨(processEvents dec servers initState raws).1 ++
      finalFlush (processEvents dec servers initState raws).2, ?_, ?_⟩
  · unfold run_with_stream_and_events
    simp
  · intro hmem
    rcases List.mem_append.mp hmem with h1 | h2
    · exact complete_notin_process dec servers raws initState h1
    · exact complete_notin_flush _ h2

/-- Claim C5 (confirmed): a tool name containing `':'` is split once into
`(provider, tool)`; otherwise the first connected server whose declared
tool list contains the name supplies the provider, and with no match the
provider is absent; in particular `"files:read"` resolves to provider
`"files"` tool `"read"`, and bare `"read"` with connected provider
`"files"` declaring `"read"` also resolves to provider `"files"`. -/
theorem provider_qualification :
    (∀ (servers : List MCPServer) (tn pre post : String),
        pySplitOnce tn ':' = some (pre, post) →
        resolveServerAndTool servers tn = (some pre, post)) ∧
    (∀ servers : List MCPServer,
        resolveServerAndTool servers "files:read" = (some "files", "read")) ∧
    (resolveServerAndTool [filesServer] "read" = (some "files", "read")) ∧
    (∀ (servers : List MCPServer) (tn : String) (sv : MCPServer),
        pySplitOnce tn ':' = none →
        servers.find? (fun v => v.tools.contains tn) = some sv →
        resolveServerAndTool servers tn = (some sv.display_name, tn)) ∧
    (∀ (servers : List MCPServer) (tn : String),
        pySplitOnce tn ':' = none →
        servers.find? (fun v => v.tools.contains tn) = none →
        resolveServerAndTool servers tn = (none, tn)) := by
  refine ⟨?_, ?_, ?_, ?_, ?_⟩
  · intro servers tn pre post h
    simp [resolveServerAndTool, h]
  · intro servers
    rfl
  · decide
  · intro servers tn sv h1 h2
    simp only [resolveServerAndTool, h1, h2]
  · intro servers tn h1 h2
    simp only [resolveServerAndTool, h1, h2]

/-- Witness for C5: the qualification hypotheses are satisfiable on
concrete inputs. -/
theorem provider_qualification_witness :
    resolveServerAndTool [] "a:b" = (some "a", "b") ∧
    resolveServerAndTool [filesServer] "write" = (none, "write") :=
  ⟨provider_qualification.1 [] "a:b" "a" "b" (by decide),
   (provider_qualification.2.2.2.2) [filesServer] "write" (by decide) (by decide)⟩

/-- Claim C6 (confirmed): when the raw record's arguments field is a string
the decoder rejects (and no fallback argument source is present on the
item), the resolver yields the empty mapping and the emitted `tool_call`
event carries empty arguments; the step is total, so the turn continues. -/
theorem undecodable_arguments_empty_mapping (dec : String → Option ArgsMap)
    (servers : List MCPServer) (str : String) (raw : RawToolCall)
    (item : ToolCallRecord)
    (hraw : item.raw_item = some raw) (harg : raw.arguments = some (.text str))
    (hdec : dec str = none) (hia : item.arguments = none)
    (hargs : item.args = none) (hf : item.function = none) :
    item.resolved_tool_args dec = [] ∧
    ∀ (s : StreamState), (stepEvent dec servers s (.toolCallItem item)).2 =
      [PresentationEvent.toolCall
        (formatToolName (resolveServerAndTool servers item.resolved_tool_name)) []] := by
  have hargsres : item.resolved_tool_args dec = [] := by
    by_cases hstr : str = ""
    · subst hstr
      simp [ToolCallRecord.resolved_tool_args, hraw, harg, hia, hargs, hf,
        ArgVal.pyTruthyA, Option.orElse]
    · simp [ToolCallRecord.resolved_tool_args, hraw, harg, hia, hargs, hf,
        ArgVal.pyTruthyA, hstr, hdec, Option.orElse]
  refine ⟨hargsres, ?_⟩
  intro s
  rw [step_toolCall]
  simp only [hargsres]

/-- Witness for C6: the undecodable-arguments hypotheses are satisfiable on
the scenario record with arguments text `"\x7bnot json"`. -/
theorem undecodable_arguments_empty_mapping_witness :
    itemBadArgs.resolved_tool_args dec0 = [] :=
  (undecodable_arguments_empty_mapping dec0 [] "\x7bnot json" rawBadArgs itemBadArgs
    rfl rfl rfl rfl rfl rfl).1

/-- Claim C7 (confirmed, under the stated stream invariant that every
tool-invocation result is preceded by a tool-invocation start): the socket
adapter relays every presentation event of the turn, with `think` events
sent under the `text_delta` wire type carrying the same content and all
other events unchanged; the classifier's own emitted types are untouched
(the remap is applied only on the wire). -/
theorem socket_relay_remaps_think_only (dec : String → Option ArgsMap)
    (servers : List MCPServer) (raws : List RawEvent)
    (hwf : resultsPrecededByStart false raws = true) :
    handle_user_message dec servers raws =
      (run_with_stream_and_events dec servers raws).map thinkToTextDelta := by
  have h := relay_process dec servers raws initState adapterInit relayInv_init
    (by simpa [initState] using hwf)
  unfold handle_user_message
  rw [run_eq_loop, relayEventsAux_append]
  simp only [List.map_append]
  rw [h.1]
  simp [relayEventsAux, relayEventsAux_cons, handleEventStep, thinkToTextDelta]

/-- Witness for C7: the well-formedness hypothesis is satisfiable on the
happy-path stream `ex3` and the relayed messages coincide with the
remapped classifier output there. -/
theorem socket_relay_remaps_think_only_witness :
    handle_user_message dec0 [] ex3 =
      (run_with_stream_and_events dec0 [] ex3).map thinkToTextDelta :=
  socket_relay_remaps_think_only dec0 [] ex3 (by decide)

/-- Claim C8 (confirmed): the classifier output is a deterministic function
of the raw stream, the decoder and the connected provider set: two fresh
agent instances with the same providers produce identical output, with no
dependence on prior turns (the per-turn state is rebuilt from
`initState` on every run). -/
theorem classifier_deterministic (a1 a2 : ReactAgent) (dec : String → Option ArgsMap)
    (raws : List RawEvent) (h : a1.mcp_servers = a2.mcp_servers) :
    a1.runStreamEvents dec raws = a2.runStreamEvents dec raws := by
  unfold ReactAgent.runStreamEvents
  rw [h]

/-- Witness for C8: two freshly constructed agents over the same provider
list yield the same output on a concrete stream. -/
theorem classifier_deterministic_witness :
    (ReactAgent.mk [filesServer]).runStreamEvents dec0 ex3 =
      (ReactAgent.mk [filesServer]).runStreamEvents dec0 ex3 :=
  classifier_deterministic (ReactAgent.mk [filesServer]) (ReactAgent.mk [filesServer])
    dec0 ex3 rfl

/-- Claim C9 (confirmed): every `tool_output` presentation event emitted by
the classifier carries the fixed literal `"工具调用结果"` as its
`tool_name` field, never the resolved tool name. -/
theorem tool_output_fixed_display_name (dec : String → Option ArgsMap)
    (servers : List MCPServer) (raws : List RawEvent) (n : String)
    (o : Option String)
    (h : PresentationEvent.toolOutput n o ∈ run_with_stream_and_events dec servers raws) :
    n = "工具调用结果" := by
  rw [run_eq_loop] at h
  rcases List.mem_append.mp h with h1 | h2
  · exact toolOutput_name_process dec servers raws initState n o h1
  · simp at h2

/-- Witness for C9: a `tool_output` event does occur in a concrete run and
its name is the fixed literal. -/
theorem tool_output_fixed_display_name_witness : "工具调用结果" = "工具调用结果" :=
  tool_output_fixed_display_name dec0 [] ex1 "工具调用结果" (some "ok") (by decide)

/-- Claim C10 (confirmed): in every classifier output no `think` event
occurs after the first `tool_call` event of the turn. -/
theorem no_think_after_first_tool_call (dec : String → Option ArgsMap)
    (servers : List MCPServer) (raws : List RawEvent) :
    noThinkAfterFirstToolCall (run_with_stream_and_events dec servers raws) = true := by
  unfold run_with_stream_and_events
  rw [List.append_assoc]
  apply noThink_process
  simp only [List.all_append, Bool.and_eq_true]
  exact ⟨flush_all_nonthink _, by simp [PresentationEvent.isThink]⟩

end ReactAgentSpec
